import Mathlib

/-!
Verification of the NEAT evolutionary engine (klappstuhl24/neat).

The repository ships a README and an example notebook; the engine itself
(the `NEAT` Python module the notebook imports) is not part of the visible
sources.  Every definition below is therefore a shallow embedding modelled
from the specification of the engine: genomes are flat collections of node
and connection genes, the innovation registry is explicit append-only
state, randomness is passed in as explicit choice functions, and real
weights and fitness values are represented by rational numbers.
-/

/-- Modelled from the spec: a NodeGene role (`input`, `output`, `hidden`). -/
inductive NodeRole where
  | input
  | output
  | hidden
deriving DecidableEq, Repr

/-- Modelled from the spec: a NodeGene has an identifier unique within a
genome and a role.  The activation tag plays no part in the claims and is
omitted. -/
structure NodeGene where
  id : Nat
  role : NodeRole
deriving DecidableEq, Repr

/-- Modelled from the spec: a ConnectionGene has a source node id, target
node id, real weight, enabled flag and a historical marker. -/
structure ConnectionGene where
  source : Nat
  target : Nat
  weight : ℚ
  enabled : Bool
  marker : Nat
deriving DecidableEq, Repr

/-- Modelled from the spec: a Genome owns a set of NodeGenes (unique by id)
and a set of ConnectionGenes (unique by historical marker). -/
structure Genome where
  nodes : List NodeGene
  connections : List ConnectionGene
deriving DecidableEq, Repr

/-- The set of node ids present in a genome. -/
def Genome.nodeIds (g : Genome) : Finset Nat :=
  (g.nodes.map NodeGene.id).toFinset

/-- The set of historical markers present in a genome's connections. -/
def Genome.markerSet (g : Genome) : Finset Nat :=
  (g.connections.map ConnectionGene.marker).toFinset

/-- Every connection gene's source and target reference node ids present in
the same genome (the no-dangling-references invariant). -/
def Genome.validRefs (g : Genome) : Prop :=
  ∀ c ∈ g.connections, c.source ∈ g.nodeIds ∧ c.target ∈ g.nodeIds

instance (g : Genome) : Decidable g.validRefs := by
  unfold Genome.validRefs; infer_instance

/-- First-match association lookup used by the innovation registry. -/
def findMarker (l : List ((Nat × Nat) × Nat)) (p : Nat × Nat) : Option Nat :=
  match l with
  | [] => none
  | (q, m) :: rest => if q = p then some m else findMarker rest p

/-- First-match association lookup for recorded connection splits. -/
def findSplit (l : List (Nat × (Nat × Nat × Nat))) (cm : Nat) :
    Option (Nat × Nat × Nat) :=
  match l with
  | [] => none
  | (q, d) :: rest => if q = cm then some d else findSplit rest cm

/-- Modelled from the spec: the process-wide InnovationRegistry.  It maps
(source id, target id) pairs to historical markers, records connection
splits for add-node mutations, and holds the monotone counters for fresh
markers and fresh node ids.  All state is append-only. -/
structure InnovationRegistry where
  connMarkers : List ((Nat × Nat) × Nat)
  splitRecords : List (Nat × (Nat × Nat × Nat))
  nextMarker : Nat
  nextNodeId : Nat
deriving DecidableEq, Repr

/-- The registry at the start of a run: empty tables. -/
def emptyRegistry (firstNodeId : Nat) : InnovationRegistry :=
  { connMarkers := [], splitRecords := [], nextMarker := 0,
    nextNodeId := firstNodeId }

/-- Modelled from the spec: returns the existing marker if this exact
(source, target) pair has ever been assigned one during the run, otherwise
allocates the next integer and records it. -/
def get_or_create_connection_marker (r : InnovationRegistry)
    (s t : Nat) : Nat × InnovationRegistry :=
  match findMarker r.connMarkers (s, t) with
  | some m => (m, r)
  | none =>
      (r.nextMarker,
        { r with connMarkers := ((s, t), r.nextMarker) :: r.connMarkers,
                 nextMarker := r.nextMarker + 1 })

/-- Modelled from the spec: for an add-node mutation that subdivides an
existing connection, returns the same new node id and connection markers if
this exact connection marker has already been split, otherwise allocates
fresh ones. -/
def split_connection (r : InnovationRegistry) (cm : Nat) :
    (Nat × Nat × Nat) × InnovationRegistry :=
  match findSplit r.splitRecords cm with
  | some d => (d, r)
  | none =>
      ((r.nextNodeId, r.nextMarker, r.nextMarker + 1),
        { r with splitRecords :=
                   (cm, (r.nextNodeId, r.nextMarker, r.nextMarker + 1))
                     :: r.splitRecords,
                 nextMarker := r.nextMarker + 2,
                 nextNodeId := r.nextNodeId + 1 })

/-- The registry operations a breeding phase may interleave between two
queries for the same pair. -/
inductive RegOp where
  | getConn : Nat → Nat → RegOp
  | splitConn : Nat → RegOp

/-- Apply one registry operation, keeping only the updated state. -/
def applyRegOp (r : InnovationRegistry) : RegOp → InnovationRegistry
  | RegOp.getConn s t => (get_or_create_connection_marker r s t).2
  | RegOp.splitConn cm => (split_connection r cm).2

/-- Apply a sequence of registry operations. -/
def applyRegOps (r : InnovationRegistry) (ops : List RegOp) :
    InnovationRegistry :=
  ops.foldl applyRegOp r

lemma findMarker_applyRegOp (r : InnovationRegistry) (op : RegOp)
    (p : Nat × Nat) (m : Nat) (h : findMarker r.connMarkers p = some m) :
    findMarker (applyRegOp r op).connMarkers p = some m := by
  cases op with
  | getConn s t =>
      simp only [applyRegOp, get_or_create_connection_marker]
      cases hf : findMarker r.connMarkers (s, t) with
      | some m2 => simpa using h
      | none =>
          simp only [findMarker]
          have hne : (s, t) ≠ p := by
            intro he; rw [he] at hf; rw [hf] at h; exact Option.noConfusion h
          rw [if_neg hne]
          exact h
  | splitConn cm =>
      simp only [applyRegOp, split_connection]
      cases hf : findSplit r.splitRecords cm with
      | some d => simpa using h
      | none => simpa using h

lemma findMarker_applyRegOps (r : InnovationRegistry) (ops : List RegOp)
    (p : Nat × Nat) (m : Nat) (h : findMarker r.connMarkers p = some m) :
    findMarker (applyRegOps r ops).connMarkers p = some m := by
  induction ops generalizing r with
  | nil => exact h
  | cons op rest ih =>
      exact ih (applyRegOp r op) (findMarker_applyRegOp r op p m h)

lemma get_or_create_found (r : InnovationRegistry) (s t m : Nat)
    (h : findMarker r.connMarkers (s, t) = some m) :
    get_or_create_connection_marker r s t = (m, r) := by
  simp [get_or_create_connection_marker, h]

lemma get_or_create_records (r : InnovationRegistry) (s t : Nat) :
    findMarker (get_or_create_connection_marker r s t).2.connMarkers (s, t)
      = some (get_or_create_connection_marker r s t).1 := by
  simp only [get_or_create_connection_marker]
  cases hf : findMarker r.connMarkers (s, t) with
  | some m => simpa using hf
  | none => simp [findMarker]

/-- C6: `get_or_create_connection_marker` returns the previously assigned
marker whenever the (source, target) pair already has one, otherwise
allocates the next integer; and after any interleaving of further registry
operations, a later query for the same pair returns the identical marker
(registry convergence). -/
theorem marker_registry_stable (r : InnovationRegistry) (s t : Nat)
    (ops : List RegOp) :
    (findMarker r.connMarkers (s, t) = none →
      (get_or_create_connection_marker r s t).1 = r.nextMarker) ∧
    (∀ m, findMarker r.connMarkers (s, t) = some m →
      (get_or_create_connection_marker r s t).1 = m) ∧
    (get_or_create_connection_marker
        (applyRegOps (get_or_create_connection_marker r s t).2 ops) s t).1
      = (get_or_create_connection_marker r s t).1 := by
  refine ⟨?_, ?_, ?_⟩
  · intro h
    simp [get_or_create_connection_marker, h]
  · intro m h
    simp [get_or_create_connection_marker, h]
  · have h1 := get_or_create_records r s t
    have h2 := findMarker_applyRegOps
      (get_or_create_connection_marker r s t).2 ops (s, t)
      (get_or_create_connection_marker r s t).1 h1
    rw [get_or_create_found _ s t _ h2]

/-- Witness for C6: in a fresh registry, the pair (1, 2) gets the next
integer marker 0; re-querying after unrelated registry traffic returns the
same marker 0. -/
theorem marker_registry_stable_witness :
    (get_or_create_connection_marker (emptyRegistry 3) 1 2).1 = 0 ∧
    (get_or_create_connection_marker
        (applyRegOps (get_or_create_connection_marker (emptyRegistry 3) 1 2).2
          [RegOp.getConn 0 2, RegOp.splitConn 0, RegOp.getConn 1 2]) 1 2).1
      = (get_or_create_connection_marker (emptyRegistry 3) 1 2).1 :=
  ⟨(marker_registry_stable (emptyRegistry 3) 1 2 []).1 rfl,
   (marker_registry_stable (emptyRegistry 3) 1 2
      [RegOp.getConn 0 2, RegOp.splitConn 0, RegOp.getConn 1 2]).2.2⟩

/-- Modelled from the spec: the species-id bookkeeping visible in the
notebook reports.  Species ids come from a monotone counter; destroying a
species removes it from the live set but its id stays recorded as used. -/
structure SpeciesIdState where
  nextId : Nat
  liveIds : List Nat
  usedIds : List Nat
deriving DecidableEq, Repr

/-- Species ids in the notebook reports start at 1. -/
def initialSpeciesIds : SpeciesIdState :=
  { nextId := 1, liveIds := [], usedIds := [] }

/-- Species-level lifecycle events: creation of a new species, destruction
of an existing one. -/
inductive SpeciesOp where
  | create
  | destroy : Nat → SpeciesOp

/-- Modelled from the spec: creating a species assigns the counter value
and increments it; destroying a species only removes it from the live set. -/
def applySpeciesOp (s : SpeciesIdState) : SpeciesOp → SpeciesIdState
  | SpeciesOp.create =>
      { nextId := s.nextId + 1, liveIds := s.nextId :: s.liveIds,
        usedIds := s.nextId :: s.usedIds }
  | SpeciesOp.destroy i =>
      { s with liveIds := s.liveIds.filter (fun j => j != i) }

/-- Apply a sequence of species lifecycle events. -/
def applySpeciesOps (s : SpeciesIdState) (ops : List SpeciesOp) :
    SpeciesIdState :=
  ops.foldl applySpeciesOp s

lemma speciesIds_bounded_step (s : SpeciesIdState)
    (h : ∀ i ∈ s.usedIds, i < s.nextId) (op : SpeciesOp) :
    ∀ i ∈ (applySpeciesOp s op).usedIds, i < (applySpeciesOp s op).nextId := by
  cases op with
  | create =>
      intro i hi
      simp only [applySpeciesOp, List.mem_cons] at hi ⊢
      rcases hi with h1 | h2
      · omega
      · exact Nat.lt_succ_of_lt (h i h2)
  | destroy j =>
      intro i hi
      exact h i hi

lemma speciesIds_bounded (ops : List SpeciesOp) (s : SpeciesIdState)
    (h : ∀ i ∈ s.usedIds, i < s.nextId) :
    ∀ i ∈ (applySpeciesOps s ops).usedIds, i < (applySpeciesOps s ops).nextId := by
  induction ops generalizing s with
  | nil => exact h
  | cons op rest ih =>
      exact ih (applySpeciesOp s op) (speciesIds_bounded_step s h op)

/-- C10: species ids are allocated monotonically and never reused — after
any sequence of species creations and destructions, every id ever used is
strictly below the counter, and the next created species receives exactly
the counter value, hence an id strictly greater than every id ever used. -/
theorem species_ids_never_reused (ops : List SpeciesOp) :
    (∀ i ∈ (applySpeciesOps initialSpeciesIds ops).usedIds,
        i < (applySpeciesOps initialSpeciesIds ops).nextId) ∧
    (applySpeciesOp (applySpeciesOps initialSpeciesIds ops)
        SpeciesOp.create).usedIds
      = (applySpeciesOps initialSpeciesIds ops).nextId
          :: (applySpeciesOps initialSpeciesIds ops).usedIds := by
  constructor
  · exact speciesIds_bounded ops initialSpeciesIds (by intro i hi; simp [initialSpeciesIds] at hi)
  · rfl

/-- Witness for C10: create two species, destroy species 1, create another;
the destroyed id 1 is still recorded as used and is strictly below the
counter, so it is never handed out again. -/
theorem species_ids_never_reused_witness :
    1 ∈ (applySpeciesOps initialSpeciesIds
          [SpeciesOp.create, SpeciesOp.create, SpeciesOp.destroy 1,
           SpeciesOp.create]).usedIds ∧
    1 < (applySpeciesOps initialSpeciesIds
          [SpeciesOp.create, SpeciesOp.create, SpeciesOp.destroy 1,
           SpeciesOp.create]).nextId :=
  ⟨by decide,
   (species_ids_never_reused
      [SpeciesOp.create, SpeciesOp.create, SpeciesOp.destroy 1,
       SpeciesOp.create]).1 1 (by decide)⟩

/-- The largest historical marker in a genome (0 for an empty genome);
the smaller genome's marker range is bounded by the minimum of the two. -/
def Genome.maxMarker (g : Genome) : Nat :=
  (g.connections.map ConnectionGene.marker).foldr max 0

/-- Whether a genome carries a connection gene with the given marker. -/
def Genome.hasMarker (g : Genome) (m : Nat) : Bool :=
  g.connections.any (fun c => c.marker == m)

/-- The weight of the connection gene with the given marker (0 when the
marker is absent; genomes carry at most one gene per marker). -/
def Genome.weightAt (g : Genome) (m : Nat) : ℚ :=
  match g.connections.find? (fun c => c.marker == m) with
  | some c => c.weight
  | none => 0

/-- The union of historical markers present in either genome, without
duplicates, in first-occurrence order. -/
def unionMarkers (a b : Genome) : List Nat :=
  ((a.connections.map ConnectionGene.marker)
    ++ (b.connections.map ConnectionGene.marker)).dedup

/-- Running totals while scanning the union of markers of two genomes. -/
structure GeneTally where
  disjointCount : Nat
  excessCount : Nat
  matchCount : Nat
  weightDiffTotal : ℚ

/-- One step of the gene-alignment scan: a marker present in both genomes
is matching; an unmatched marker within the smaller genome's marker range
is disjoint; an unmatched marker beyond it is excess. -/
def tallyStep (a b : Genome) (t : GeneTally) (m : Nat) : GeneTally :=
  if a.hasMarker m && b.hasMarker m then
    { t with matchCount := t.matchCount + 1,
             weightDiffTotal := t.weightDiffTotal
               + |a.weightAt m - b.weightAt m| }
  else if m ≤ min a.maxMarker b.maxMarker then
    { t with disjointCount := t.disjointCount + 1 }
  else
    { t with excessCount := t.excessCount + 1 }

/-- Scan the whole union of markers of two genomes. -/
def tallyGenes (a b : Genome) : GeneTally :=
  (unionMarkers a b).foldl (tallyStep a b) ⟨0, 0, 0, 0⟩

/-- Modelled from the spec: NEAT compatibility distance.  The
disjoint/excess term is normalized by max(len a, len b, 1); the matching
term is the average absolute weight difference (0 when there are no
matching genes, via rational division by zero). -/
def compatibility_distance (a b : Genome) (c1 c2 c3 : ℚ) : ℚ :=
  (c1 * (tallyGenes a b).disjointCount + c2 * (tallyGenes a b).excessCount)
      / (max (max a.connections.length b.connections.length) 1 : ℕ)
    + c3 * ((tallyGenes a b).weightDiffTotal / (tallyGenes a b).matchCount)

/-- The markers present in both genomes (matching genes), stated as in the
claim. -/
def matchingMarkers (a b : Genome) : Finset Nat :=
  a.markerSet ∩ b.markerSet

/-- The upper end of the smaller genome's marker range. -/
def smallerRange (a b : Genome) : Nat :=
  min a.maxMarker b.maxMarker

/-- Disjoint genes as the claim states them: markers present in exactly
one genome and within the smaller genome's marker range. -/
def disjointGenes (a b : Genome) : Finset Nat :=
  (a.markerSet ∪ b.markerSet).filter
    (fun m => ¬(m ∈ a.markerSet ∧ m ∈ b.markerSet) ∧ m ≤ smallerRange a b)

/-- Excess genes as the claim states them: markers present in exactly one
genome and beyond the smaller genome's marker range. -/
def excessGenes (a b : Genome) : Finset Nat :=
  (a.markerSet ∪ b.markerSet).filter
    (fun m => ¬(m ∈ a.markerSet ∧ m ∈ b.markerSet) ∧ smallerRange a b < m)

/-- Total absolute weight difference over matching genes. -/
def weightDiffSum (a b : Genome) : ℚ :=
  Finset.sum (matchingMarkers a b) (fun m => |a.weightAt m - b.weightAt m|)

/-- Average absolute weight difference over matching genes. -/
def avgWeightDiff (a b : Genome) : ℚ :=
  weightDiffSum a b / (matchingMarkers a b).card

lemma hasMarker_iff (g : Genome) (m : Nat) :
    g.hasMarker m = true ↔ m ∈ g.markerSet := by
  unfold Genome.hasMarker Genome.markerSet
  rw [List.any_eq_true]
  simp only [List.mem_toFinset, List.mem_map, beq_iff_eq]

lemma tallyStep_match (a b : Genome) (t : GeneTally) (m : Nat) :
    (tallyStep a b t m).matchCount
      = t.matchCount
        + (if (a.hasMarker m && b.hasMarker m) = true then 1 else 0) := by
  unfold tallyStep
  cases hb : a.hasMarker m && b.hasMarker m <;>
    by_cases hr : m ≤ min a.maxMarker b.maxMarker <;> simp [hb, hr]

lemma tallyStep_disjoint (a b : Genome) (t : GeneTally) (m : Nat) :
    (tallyStep a b t m).disjointCount
      = t.disjointCount
        + (if ((!(a.hasMarker m && b.hasMarker m))
              && decide (m ≤ min a.maxMarker b.maxMarker)) = true
           then 1 else 0) := by
  unfold tallyStep
  cases hb : a.hasMarker m && b.hasMarker m <;>
    by_cases hr : m ≤ min a.maxMarker b.maxMarker <;> simp [hb, hr]

lemma tallyStep_excess (a b : Genome) (t : GeneTally) (m : Nat) :
    (tallyStep a b t m).excessCount
      = t.excessCount
        + (if ((!(a.hasMarker m && b.hasMarker m))
              && !decide (m ≤ min a.maxMarker b.maxMarker)) = true
           then 1 else 0) := by
  unfold tallyStep
  cases hb : a.hasMarker m && b.hasMarker m <;>
    by_cases hr : m ≤ min a.maxMarker b.maxMarker <;> simp [hb, hr]

lemma tallyStep_weight (a b : Genome) (t : GeneTally) (m : Nat) :
    (tallyStep a b t m).weightDiffTotal
      = t.weightDiffTotal
        + (if (a.hasMarker m && b.hasMarker m) = true
           then |a.weightAt m - b.weightAt m| else 0) := by
  unfold tallyStep
  cases hb : a.hasMarker m && b.hasMarker m <;>
    by_cases hr : m ≤ min a.maxMarker b.maxMarker <;> simp [hb, hr]

lemma tallyFold_match (a b : Genome) (l : List Nat) (t : GeneTally) :
    (l.foldl (tallyStep a b) t).matchCount
      = t.matchCount + l.countP (fun m => a.hasMarker m && b.hasMarker m) := by
  induction l generalizing t with
  | nil => simp
  | cons m rest ih =>
      rw [List.foldl_cons, ih, tallyStep_match, List.countP_cons]
      cases hb : a.hasMarker m && b.hasMarker m <;> simp [hb] <;> omega

lemma tallyFold_disjoint (a b : Genome) (l : List Nat) (t : GeneTally) :
    (l.foldl (tallyStep a b) t).disjointCount
      = t.disjointCount
        + l.countP (fun m => (!(a.hasMarker m && b.hasMarker m))
            && decide (m ≤ min a.maxMarker b.maxMarker)) := by
  induction l generalizing t with
  | nil => simp
  | cons m rest ih =>
      rw [List.foldl_cons, ih, tallyStep_disjoint, List.countP_cons]
      cases hb : (!(a.hasMarker m && b.hasMarker m))
          && decide (m ≤ min a.maxMarker b.maxMarker) <;> simp [hb] <;> omega

lemma tallyFold_excess (a b : Genome) (l : List Nat) (t : GeneTally) :
    (l.foldl (tallyStep a b) t).excessCount
      = t.excessCount
        + l.countP (fun m => (!(a.hasMarker m && b.hasMarker m))
            && !decide (m ≤ min a.maxMarker b.maxMarker)) := by
  induction l generalizing t with
  | nil => simp
  | cons m rest ih =>
      rw [List.foldl_cons, ih, tallyStep_excess, List.countP_cons]
      cases hb : (!(a.hasMarker m && b.hasMarker m))
          && !decide (m ≤ min a.maxMarker b.maxMarker) <;> simp [hb] <;> omega

lemma tallyFold_weight (a b : Genome) (l : List Nat) (t : GeneTally) :
    (l.foldl (tallyStep a b) t).weightDiffTotal
      = t.weightDiffTotal
        + ((l.filter (fun m => a.hasMarker m && b.hasMarker m)).map
            (fun m => |a.weightAt m - b.weightAt m|)).sum := by
  induction l generalizing t with
  | nil => simp
  | cons m rest ih =>
      rw [List.foldl_cons, ih, tallyStep_weight, List.filter_cons]
      cases hb : a.hasMarker m && b.hasMarker m <;> simp [hb] <;> ring

lemma unionMarkers_nodup (a b : Genome) : (unionMarkers a b).Nodup :=
  List.nodup_dedup _

lemma unionMarkers_toFinset (a b : Genome) :
    (unionMarkers a b).toFinset = a.markerSet ∪ b.markerSet := by
  unfold unionMarkers Genome.markerSet
  ext m
  simp [List.mem_dedup]

lemma notBoth_iff (a b : Genome) (m : Nat) :
    ((!(a.hasMarker m && b.hasMarker m)) = true)
      ↔ ¬(m ∈ a.markerSet ∧ m ∈ b.markerSet) := by
  cases ha : a.hasMarker m <;> cases hb : b.hasMarker m <;>
    simp [ha, hb, ← hasMarker_iff]

lemma bothFalse_iff (a b : Genome) (m : Nat) :
    ((a.hasMarker m && b.hasMarker m) = false)
      ↔ ¬(m ∈ a.markerSet ∧ m ∈ b.markerSet) := by
  cases ha : a.hasMarker m <;> cases hb : b.hasMarker m <;>
    simp [ha, hb, ← hasMarker_iff]

lemma countP_card {l : List Nat} (hl : l.Nodup) (p : Nat → Bool) :
    l.countP p = (l.toFinset.filter (fun m => p m = true)).card := by
  rw [List.countP_eq_length_filter]
  rw [← List.toFinset_card_of_nodup (hl.filter p)]
  congr 1
  rw [List.toFinset_filter]

lemma matchCount_eq (a b : Genome) :
    (tallyGenes a b).matchCount = (matchingMarkers a b).card := by
  unfold tallyGenes
  rw [tallyFold_match, countP_card (unionMarkers_nodup a b)]
  simp only [Nat.zero_add]
  congr 1
  rw [unionMarkers_toFinset]
  ext m
  simp only [Finset.mem_filter, Finset.mem_union, matchingMarkers,
    Finset.mem_inter, Bool.and_eq_true, hasMarker_iff]
  tauto

lemma disjointCount_eq (a b : Genome) :
    (tallyGenes a b).disjointCount = (disjointGenes a b).card := by
  unfold tallyGenes
  rw [tallyFold_disjoint, countP_card (unionMarkers_nodup a b)]
  simp only [Nat.zero_add]
  congr 1
  rw [unionMarkers_toFinset]
  unfold disjointGenes
  ext m
  simp only [Finset.mem_filter, Bool.and_eq_true, notBoth_iff,
    decide_eq_true_iff, smallerRange]

lemma excessCount_eq (a b : Genome) :
    (tallyGenes a b).excessCount = (excessGenes a b).card := by
  unfold tallyGenes
  rw [tallyFold_excess, countP_card (unionMarkers_nodup a b)]
  simp only [Nat.zero_add]
  congr 1
  rw [unionMarkers_toFinset]
  unfold excessGenes
  ext m
  simp only [Finset.mem_filter, Bool.and_eq_true, notBoth_iff,
    Bool.not_eq_true', bothFalse_iff, decide_eq_false_iff_not, Nat.not_le,
    smallerRange]

lemma weightDiff_eq (a b : Genome) :
    (tallyGenes a b).weightDiffTotal = weightDiffSum a b := by
  unfold tallyGenes weightDiffSum
  rw [tallyFold_weight]
  simp only [zero_add]
  have hset : ((unionMarkers a b).filter
      (fun m => a.hasMarker m && b.hasMarker m)).toFinset
        = matchingMarkers a b := by
    rw [List.toFinset_filter, unionMarkers_toFinset]
    ext m
    simp only [Finset.mem_filter, Finset.mem_union, matchingMarkers,
      Finset.mem_inter, Bool.and_eq_true, hasMarker_iff]
    tauto
  rw [← List.sum_toFinset (fun m => |a.weightAt m - b.weightAt m|)
        ((unionMarkers_nodup a b).filter _), hset]

lemma tallyGenes_eq (a b : Genome) :
    (tallyGenes a b).disjointCount = (disjointGenes a b).card
      ∧ (tallyGenes a b).excessCount = (excessGenes a b).card
      ∧ (tallyGenes a b).matchCount = (matchingMarkers a b).card
      ∧ (tallyGenes a b).weightDiffTotal = weightDiffSum a b :=
  ⟨disjointCount_eq a b, excessCount_eq a b, matchCount_eq a b,
   weightDiff_eq a b⟩

lemma disjointGenes_symm (a b : Genome) :
    disjointGenes a b = disjointGenes b a := by
  unfold disjointGenes smallerRange
  ext m
  simp only [Finset.mem_filter, Finset.mem_union]
  rw [min_comm]
  tauto

lemma excessGenes_symm (a b : Genome) :
    excessGenes a b = excessGenes b a := by
  unfold excessGenes smallerRange
  ext m
  simp only [Finset.mem_filter, Finset.mem_union]
  rw [min_comm]
  tauto

lemma matchingMarkers_symm (a b : Genome) :
    matchingMarkers a b = matchingMarkers b a :=
  Finset.inter_comm _ _

lemma weightDiffSum_symm (a b : Genome) :
    weightDiffSum a b = weightDiffSum b a := by
  unfold weightDiffSum
  rw [matchingMarkers_symm]
  exact Finset.sum_congr rfl (fun m _ => abs_sub_comm _ _)

/-- C2: `compatibility_distance a b c1 c2 c3` equals (c1 × number of
disjoint genes + c2 × number of excess genes) divided by
max(len a.connections, len b.connections, 1), plus c3 × the average
absolute weight difference over matching genes, where disjoint genes are
unmatched markers within the smaller genome's marker range and excess
genes are unmatched markers beyond it. -/
theorem compatibility_distance_formula (a b : Genome) (c1 c2 c3 : ℚ) :
    compatibility_distance a b c1 c2 c3
      = (c1 * (disjointGenes a b).card + c2 * (excessGenes a b).card)
          / (max (max a.connections.length b.connections.length) 1 : ℕ)
        + c3 * avgWeightDiff a b := by
  unfold compatibility_distance avgWeightDiff
  rw [disjointCount_eq, excessCount_eq, matchCount_eq, weightDiff_eq]

/-- C7: `compatibility_distance` is symmetric in its two genome arguments
for every choice of the coefficients. -/
theorem compatibility_distance_symm (a b : Genome) (c1 c2 c3 : ℚ) :
    compatibility_distance a b c1 c2 c3
      = compatibility_distance b a c1 c2 c3 := by
  unfold compatibility_distance
  simp only [disjointCount_eq, excessCount_eq, matchCount_eq, weightDiff_eq]
  rw [disjointGenes_symm, excessGenes_symm, weightDiffSum_symm,
    matchingMarkers_symm, max_comm a.connections.length b.connections.length]

/-- Nonnegative part of each species' adjusted fitness: a species with
negative adjusted fitness contributes no share of the offspring pool. -/
def posPart (fs : List ℚ) : List ℚ :=
  fs.map (fun f => max f 0)

/-- Modelled from the spec: each species' share of the offspring pool,
proportional to its adjusted-fitness share of the total.  When the total
positive adjusted fitness is zero (for instance all-zero fitness), every
species receives an equal share, so the pool is still fully allocated. -/
def speciesShares (fs : List ℚ) : List ℚ :=
  if (0 : ℚ) < (posPart fs).sum
  then (posPart fs).map (fun f => f / (posPart fs).sum)
  else fs.map (fun _ => 1 / (fs.length : ℚ))

/-- Modelled from the spec: deterministic rounding of proportional quotas
(cascade rounding over cumulative shares), fixed so that quotas sum exactly
to the population size rather than drifting with floating rounding. -/
def allocQuotas (pop : ℕ) (acc : ℚ) : List ℚ → List ℕ
  | [] => []
  | s :: rest =>
      (⌊(pop : ℚ) * (acc + s)⌋ - ⌊(pop : ℚ) * acc⌋).toNat
        :: allocQuotas pop (acc + s) rest

/-- Modelled from the spec: the AllocatingOffspring stage — per-species
offspring quotas from the per-species adjusted fitness values. -/
def allocateOffspring (pop : ℕ) (fs : List ℚ) : List ℕ :=
  allocQuotas pop 0 (speciesShares fs)

lemma list_sum_map_div (l : List ℚ) (T : ℚ) :
    (l.map (fun f => f / T)).sum = l.sum / T := by
  induction l with
  | nil => simp
  | cons x xs ih => simp [ih, add_div]

lemma speciesShares_nonneg (fs : List ℚ) :
    ∀ s ∈ speciesShares fs, 0 ≤ s := by
  intro s hs
  unfold speciesShares at hs
  by_cases hT : (0 : ℚ) < (posPart fs).sum
  · rw [if_pos hT] at hs
    obtain ⟨f, hf, rfl⟩ := List.mem_map.mp hs
    obtain ⟨f0, _, rfl⟩ := List.mem_map.mp hf
    exact div_nonneg (le_max_right f0 0) (le_of_lt hT)
  · rw [if_neg hT] at hs
    obtain ⟨f, _, rfl⟩ := List.mem_map.mp hs
    positivity

lemma speciesShares_sum (fs : List ℚ) (h : fs ≠ []) :
    (speciesShares fs).sum = 1 := by
  unfold speciesShares
  by_cases hT : (0 : ℚ) < (posPart fs).sum
  · rw [if_pos hT, list_sum_map_div]
    exact div_self (ne_of_gt hT)
  · rw [if_neg hT, List.map_const']
    rw [List.sum_replicate, nsmul_eq_mul, mul_one_div]
    refine div_self ?_
    have : fs.length ≠ 0 := fun he => h (List.length_eq_zero.mp he)
    exact_mod_cast this

lemma allocQuotas_sum (pop : ℕ) (shares : List ℚ) (acc : ℚ)
    (hpos : ∀ s ∈ shares, 0 ≤ s) :
    ((allocQuotas pop acc shares).sum : ℤ)
      = ⌊(pop : ℚ) * (acc + shares.sum)⌋ - ⌊(pop : ℚ) * acc⌋ := by
  induction shares generalizing acc with
  | nil => simp [allocQuotas]
  | cons s rest ih =>
      have hs : (0 : ℚ) ≤ s := hpos s (List.mem_cons_self s rest)
      have hmono : ⌊(pop : ℚ) * acc⌋ ≤ ⌊(pop : ℚ) * (acc + s)⌋ := by
        apply Int.floor_le_floor
        have : acc ≤ acc + s := le_add_of_nonneg_right hs
        exact mul_le_mul_of_nonneg_left this (by positivity)
      have ihr := ih (acc + s) (fun x hx => hpos x (List.mem_cons_of_mem s hx))
      simp only [allocQuotas, List.sum_cons] at ihr ⊢
      push_cast at ihr ⊢
      rw [Int.toNat_of_nonneg (by omega)]
      rw [show acc + (s + rest.sum) = acc + s + rest.sum by ring]
      omega

/-- C3: the offspring quotas allocated across species in the
AllocatingOffspring stage sum exactly to the population size, for every
per-species fitness distribution (all-zero and all-equal included). -/
theorem offspring_quotas_sum (pop : ℕ) (fs : List ℚ) (h : fs ≠ []) :
    (allocateOffspring pop fs).sum = pop := by
  unfold allocateOffspring
  have hq := allocQuotas_sum pop (speciesShares fs) 0 (speciesShares_nonneg fs)
  rw [speciesShares_sum fs h] at hq
  have : ((allocQuotas pop 0 (speciesShares fs)).sum : ℤ) = pop := by
    rw [hq]
    simp
  exact_mod_cast this

/-- Witness for C3: seven offspring split over three species all of fitness
zero still sum to seven. -/
theorem offspring_quotas_sum_witness :
    ([(0 : ℚ), 0, 0] ≠ []) ∧ (allocateOffspring 7 [0, 0, 0]).sum = 7 :=
  ⟨by simp, offspring_quotas_sum 7 [0, 0, 0] (by simp)⟩

/-- The connection gene of a genome carrying a given marker, if any. -/
def findConn (g : Genome) (m : Nat) : Option ConnectionGene :=
  g.connections.find? (fun c => c.marker == m)

/-- The random choices driving one crossover: which parent each matching
gene is taken from, whether a gene disabled in either parent stays
disabled, and the uniformly-random tie-break parent for unmatched genes
when fitness is equal (true picks parent a). -/
structure CrossChoices where
  pick : Nat → Bool
  disableRoll : Nat → Bool
  tiePick : Nat → Bool

/-- Modelled from the spec: gene inheritance during crossover.  A marker
present in both parents is inherited from a random parent, forced disabled
with some probability when either copy is disabled; a marker present in
exactly one parent is inherited only when that parent is the fitter one
(random parent on ties); otherwise nothing is inherited. -/
def inheritGene (a b : Genome) (fa fb : ℚ) (ch : CrossChoices) (m : Nat) :
    Option ConnectionGene :=
  match findConn a m, findConn b m with
  | some ca, some cb =>
      if (!ca.enabled || !cb.enabled) && ch.disableRoll m then
        some { (if ch.pick m then ca else cb) with enabled := false }
      else some (if ch.pick m then ca else cb)
  | some ca, none =>
      if fb < fa then some ca
      else if fa = fb then (if ch.tiePick m then some ca else none)
      else none
  | none, some cb =>
      if fa < fb then some cb
      else if fa = fb then (if ch.tiePick m then none else some cb)
      else none
  | none, none => none

/-- The child's connection genes: every marker of either parent, scanned
once, inherited according to `inheritGene`. -/
def childConnections (a b : Genome) (fa fb : ℚ) (ch : CrossChoices) :
    List ConnectionGene :=
  (unionMarkers a b).filterMap (inheritGene a b fa fb ch)

/-- The input and output node genes of a genome. -/
def ioNodes (g : Genome) : List NodeGene :=
  g.nodes.filter (fun n => !(n.role == NodeRole.hidden))

/-- The node gene with a given id, looked up in parent a, then parent b,
defaulting to a hidden node with that id. -/
def lookupNode (a b : Genome) (i : Nat) : NodeGene :=
  match a.nodes.find? (fun n => n.id == i) with
  | some n => n
  | none =>
      match b.nodes.find? (fun n => n.id == i) with
      | some n => n
      | none => { id := i, role := NodeRole.hidden }

/-- Modelled from the spec: crossover of two parents.  The child's node set
is the union of node ids referenced by its inherited connections plus all
of both parents' input/output nodes. -/
def crossover (a b : Genome) (fa fb : ℚ) (ch : CrossChoices) : Genome :=
  let conns := childConnections a b fa fb ch
  { nodes :=
      ((conns.map ConnectionGene.source ++ conns.map ConnectionGene.target
          ++ (ioNodes a ++ ioNodes b).map NodeGene.id).dedup).map
        (lookupNode a b),
    connections := conns }

lemma findConn_isSome_iff (g : Genome) (m : Nat) :
    (findConn g m).isSome = true ↔ m ∈ g.markerSet := by
  unfold findConn Genome.markerSet
  rw [List.find?_isSome]
  simp only [List.mem_toFinset, List.mem_map, beq_iff_eq]

lemma findConn_eq_none_iff (g : Genome) (m : Nat) :
    findConn g m = none ↔ m ∉ g.markerSet := by
  rw [← findConn_isSome_iff, Option.not_isSome_iff_eq_none]

lemma findConn_marker {g : Genome} {m : Nat} {c : ConnectionGene}
    (h : findConn g m = some c) : c.marker = m := by
  have := List.find?_some h
  simpa using this

lemma inheritGene_marker {a b : Genome} {fa fb : ℚ} {ch : CrossChoices}
    {m : Nat} {c : ConnectionGene}
    (h : inheritGene a b fa fb ch m = some c) : c.marker = m := by
  unfold inheritGene at h
  split at h
  · rename_i ca cb heqa heqb
    split_ifs at h <;> cases h <;>
      first
        | simpa using findConn_marker heqa
        | simpa using findConn_marker heqb
  · rename_i ca heqa heqb
    split_ifs at h <;> first
      | (cases h; exact findConn_marker heqa)
      | exact Option.noConfusion h
  · rename_i cb heqa heqb
    split_ifs at h <;> first
      | (cases h; exact findConn_marker heqb)
      | exact Option.noConfusion h
  · exact Option.noConfusion h

lemma crossover_connections (a b : Genome) (fa fb : ℚ) (ch : CrossChoices) :
    (crossover a b fa fb ch).connections = childConnections a b fa fb ch :=
  rfl

lemma mem_unionMarkers (a b : Genome) (m : Nat) :
    m ∈ unionMarkers a b ↔ m ∈ a.markerSet ∨ m ∈ b.markerSet := by
  rw [← List.mem_toFinset, unionMarkers_toFinset, Finset.mem_union]

lemma crossover_mem_markerSet (a b : Genome) (fa fb : ℚ) (ch : CrossChoices)
    (m : Nat) :
    m ∈ (crossover a b fa fb ch).markerSet
      ↔ m ∈ unionMarkers a b ∧ (inheritGene a b fa fb ch m).isSome = true := by
  unfold Genome.markerSet
  rw [crossover_connections]
  rw [List.mem_toFinset, List.mem_map]
  constructor
  · rintro ⟨c, hc, hcm⟩
    rw [childConnections, List.mem_filterMap] at hc
    obtain ⟨x, hx, hxc⟩ := hc
    have hx2 : x = m := by rw [← hcm, inheritGene_marker hxc]
    subst hx2
    exact ⟨hx, by rw [hxc]; rfl⟩
  · rintro ⟨hm, hs⟩
    obtain ⟨c, hc⟩ := Option.isSome_iff_exists.mp hs
    exact ⟨c, List.mem_filterMap.mpr ⟨m, hm, hc⟩, inheritGene_marker hc⟩

lemma inheritGene_isSome_matching (a b : Genome) (fa fb : ℚ)
    (ch : CrossChoices) (m : Nat)
    (ha : m ∈ a.markerSet) (hb : m ∈ b.markerSet) :
    (inheritGene a b fa fb ch m).isSome = true := by
  obtain ⟨ca, hca⟩ :=
    Option.isSome_iff_exists.mp ((findConn_isSome_iff a m).mpr ha)
  obtain ⟨cb, hcb⟩ :=
    Option.isSome_iff_exists.mp ((findConn_isSome_iff b m).mpr hb)
  unfold inheritGene
  rw [hca, hcb]
  by_cases hd : ((!ca.enabled || !cb.enabled) && ch.disableRoll m) = true
  · simp [hd]
  · simp [hd]

lemma inheritGene_aonly (a b : Genome) (fa fb : ℚ) (ch : CrossChoices)
    (m : Nat) (hne : fa ≠ fb) (ha : m ∈ a.markerSet) (hb : m ∉ b.markerSet) :
    ((inheritGene a b fa fb ch m).isSome = true ↔ fb < fa) := by
  obtain ⟨ca, hca⟩ :=
    Option.isSome_iff_exists.mp ((findConn_isSome_iff a m).mpr ha)
  have hcb : findConn b m = none := (findConn_eq_none_iff b m).mpr hb
  unfold inheritGene
  rw [hca, hcb]
  by_cases h1 : fb < fa
  · simp [h1]
  · simp [h1, hne]

lemma inheritGene_bonly (a b : Genome) (fa fb : ℚ) (ch : CrossChoices)
    (m : Nat) (hne : fa ≠ fb) (hb : m ∈ b.markerSet) (ha : m ∉ a.markerSet) :
    ((inheritGene a b fa fb ch m).isSome = true ↔ fa < fb) := by
  obtain ⟨cb, hcb⟩ :=
    Option.isSome_iff_exists.mp ((findConn_isSome_iff b m).mpr hb)
  have hca : findConn a m = none := (findConn_eq_none_iff a m).mpr ha
  unfold inheritGene
  rw [hca, hcb]
  by_cases h1 : fa < fb
  · simp [h1]
  · simp [h1, hne]

/-- C1: in a crossover of parents with distinct fitness, every matching
marker is inherited, and a marker present in exactly one parent appears in
the child exactly when that parent is the fitter one. -/
theorem crossover_unmatched_from_fitter (a b : Genome) (fa fb : ℚ)
    (ch : CrossChoices) (hne : fa ≠ fb) :
    (∀ m, m ∈ a.markerSet → m ∈ b.markerSet →
        m ∈ (crossover a b fa fb ch).markerSet) ∧
    (∀ m, (m ∈ a.markerSet ∧ m ∉ b.markerSet)
          ∨ (m ∈ b.markerSet ∧ m ∉ a.markerSet) →
        (m ∈ (crossover a b fa fb ch).markerSet
          ↔ (m ∈ a.markerSet ∧ fb < fa) ∨ (m ∈ b.markerSet ∧ fa < fb))) := by
  constructor
  · intro m ha hb
    rw [crossover_mem_markerSet]
    exact ⟨(mem_unionMarkers a b m).mpr (Or.inl ha),
      inheritGene_isSome_matching a b fa fb ch m ha hb⟩
  · intro m hcase
    rw [crossover_mem_markerSet]
    rcases hcase with ⟨ha, hb⟩ | ⟨hb, ha⟩
    · constructor
      · rintro ⟨-, hs⟩
        exact Or.inl ⟨ha, (inheritGene_aonly a b fa fb ch m hne ha hb).mp hs⟩
      · rintro (⟨-, hlt⟩ | ⟨hbm, -⟩)
        · exact ⟨(mem_unionMarkers a b m).mpr (Or.inl ha),
            (inheritGene_aonly a b fa fb ch m hne ha hb).mpr hlt⟩
        · exact absurd hbm hb
    · constructor
      · rintro ⟨-, hs⟩
        exact Or.inr ⟨hb, (inheritGene_bonly a b fa fb ch m hne hb ha).mp hs⟩
      · rintro (⟨ham, -⟩ | ⟨-, hlt⟩)
        · exact absurd ham ha
        · exact ⟨(mem_unionMarkers a b m).mpr (Or.inr hb),
            (inheritGene_bonly a b fa fb ch m hne hb ha).mpr hlt⟩

/-- Parent A of the spec scenario: markers 1, 2, 3 and the extra marker 4. -/
def genomeA : Genome :=
  { nodes := [{ id := 0, role := NodeRole.input },
              { id := 1, role := NodeRole.output }],
    connections :=
      [{ source := 0, target := 1, weight := 1, enabled := true, marker := 1 },
       { source := 0, target := 1, weight := 1, enabled := true, marker := 2 },
       { source := 0, target := 1, weight := 1, enabled := true, marker := 3 },
       { source := 0, target := 1, weight := 1, enabled := true, marker := 4 }] }

/-- Parent B of the spec scenario: markers 1, 2, 3 and the extra marker 5. -/
def genomeB : Genome :=
  { nodes := [{ id := 0, role := NodeRole.input },
              { id := 1, role := NodeRole.output }],
    connections :=
      [{ source := 0, target := 1, weight := 1, enabled := true, marker := 1 },
       { source := 0, target := 1, weight := 1, enabled := true, marker := 2 },
       { source := 0, target := 1, weight := 1, enabled := true, marker := 3 },
       { source := 0, target := 1, weight := 1, enabled := true, marker := 5 }] }

/-- A fixed choice bundle for the scenario crossover. -/
def chScenario : CrossChoices :=
  { pick := fun _ => true, disableRoll := fun _ => false,
    tiePick := fun _ => true }

/-- Witness for C1: with A fitter (fitness 2 against 1), the child of the
scenario parents carries exactly the markers 1, 2, 3, 4 and not marker 5. -/
theorem crossover_unmatched_from_fitter_witness :
    ((2 : ℚ) ≠ 1) ∧
    (4 ∈ (crossover genomeA genomeB 2 1 chScenario).markerSet
      ↔ (4 ∈ genomeA.markerSet ∧ (1 : ℚ) < 2)
        ∨ (4 ∈ genomeB.markerSet ∧ (2 : ℚ) < 1)) ∧
    (crossover genomeA genomeB 2 1 chScenario).markerSet
      = ({1, 2, 3, 4} : Finset Nat) ∧
    5 ∉ (crossover genomeA genomeB 2 1 chScenario).markerSet :=
  ⟨by norm_num,
   (crossover_unmatched_from_fitter genomeA genomeB 2 1 chScenario
      (by norm_num)).2 4 (Or.inl (by decide)),
   by decide,
   by decide⟩

/-- A candidate node pair is valid for add-connection when both endpoints
exist in the genome and no enabled connection already joins them. -/
def validPair (g : Genome) (p : Nat × Nat) : Bool :=
  decide (p.1 ∈ g.nodeIds) && decide (p.2 ∈ g.nodeIds)
    && !(g.connections.any
          (fun c => c.source == p.1 && c.target == p.2 && c.enabled))

/-- Modelled from the spec: weight mutation — every enabled connection's
weight is rewritten by the supplied (randomness-carrying) update function;
structure and nodes are untouched. -/
def mutate_weights (g : Genome) (f : ConnectionGene → ℚ) : Genome :=
  { g with connections :=
      g.connections.map (fun c =>
        if c.enabled then { c with weight := f c } else c) }

/-- Modelled from the spec: add-connection mutation — try the given
candidate pairs in order; insert an enabled connection for the first valid
one with a registry marker, or leave the genome unchanged when no valid
pair exists among the bounded attempts. -/
def mutate_add_connection (g : Genome) (r : InnovationRegistry)
    (attempts : List (Nat × Nat)) (w : ℚ) : Genome × InnovationRegistry :=
  match attempts.find? (validPair g) with
  | none => (g, r)
  | some p =>
      ({ g with connections :=
          { source := p.1, target := p.2, weight := w, enabled := true,
            marker := (get_or_create_connection_marker r p.1 p.2).1 }
            :: g.connections },
       (get_or_create_connection_marker r p.1 p.2).2)

/-- Modelled from the spec: add-node mutation — pick an enabled connection
(by index into the enabled sublist), disable it, and add a new hidden node
with two fresh connections source→new (weight 1) and new→target (the old
weight), identities from the registry's split operation; a no-op when the
index selects nothing. -/
def mutate_add_node (g : Genome) (r : InnovationRegistry) (choice : Nat) :
    Genome × InnovationRegistry :=
  match (g.connections.filter (fun c => c.enabled))[choice]? with
  | none => (g, r)
  | some c =>
      ({ nodes := g.nodes
           ++ [{ id := (split_connection r c.marker).1.1,
                 role := NodeRole.hidden }],
         connections :=
           { source := c.source, target := (split_connection r c.marker).1.1,
             weight := 1, enabled := true,
             marker := (split_connection r c.marker).1.2.1 }
           :: { source := (split_connection r c.marker).1.1,
                target := c.target, weight := c.weight, enabled := true,
                marker := (split_connection r c.marker).1.2.2 }
           :: g.connections.map
                (fun c2 => if c2.marker == c.marker then
                    { c2 with enabled := false } else c2) },
       (split_connection r c.marker).2)

/-- Modelled from the spec: toggle-enable mutation — flip the enabled flag
of the indexed connection; a no-op when the index selects nothing. -/
def mutate_toggle_enable (g : Genome) (idx : Nat) : Genome :=
  match g.connections[idx]? with
  | none => g
  | some c =>
      { g with connections :=
          g.connections.map (fun c2 =>
            if c2.marker == c.marker then
              { c2 with enabled := !c2.enabled } else c2) }

lemma validRefs_mutate_weights (g : Genome) (f : ConnectionGene → ℚ)
    (h : g.validRefs) : (mutate_weights g f).validRefs := by
  intro c hc
  rcases List.mem_map.mp hc with ⟨c0, hc0, heq⟩
  have h0 := h c0 hc0
  have hst : c.source = c0.source ∧ c.target = c0.target := by
    rw [← heq]
    by_cases he : c0.enabled = true <;> simp [he]
  exact ⟨hst.1 ▸ h0.1, hst.2 ▸ h0.2⟩

lemma validRefs_mutate_add_connection (g : Genome) (r : InnovationRegistry)
    (attempts : List (Nat × Nat)) (w : ℚ) (h : g.validRefs) :
    (mutate_add_connection g r attempts w).1.validRefs := by
  unfold mutate_add_connection
  split
  · exact h
  · rename_i p hp
    intro c hc
    rcases List.mem_cons.mp hc with hceq | hmem
    · have hv := List.find?_some hp
      unfold validPair at hv
      rw [Bool.and_eq_true, Bool.and_eq_true] at hv
      obtain ⟨⟨h1, h2⟩, -⟩ := hv
      rw [decide_eq_true_iff] at h1 h2
      subst hceq
      exact ⟨h1, h2⟩
    · exact h c hmem

lemma validRefs_mutate_toggle_enable (g : Genome) (idx : Nat)
    (h : g.validRefs) : (mutate_toggle_enable g idx).validRefs := by
  unfold mutate_toggle_enable
  split
  · exact h
  · rename_i c hc
    intro c2 hc2
    rcases List.mem_map.mp hc2 with ⟨c0, hc0, heq⟩
    have h0 := h c0 hc0
    have hst : c2.source = c0.source ∧ c2.target = c0.target := by
      rw [← heq]
      by_cases hb : (c0.marker == c.marker) = true <;> simp [hb]
    exact ⟨hst.1 ▸ h0.1, hst.2 ▸ h0.2⟩

lemma validRefs_mutate_add_node (g : Genome) (r : InnovationRegistry)
    (choice : Nat) (h : g.validRefs) :
    (mutate_add_node g r choice).1.validRefs := by
  unfold mutate_add_node
  split
  · exact h
  · rename_i c hc
    have hcm : c ∈ g.connections :=
      List.mem_filter.mp (List.getElem?_mem hc) |>.1
    have h0 := h c hcm
    intro c2 hc2
    have hnode : ∀ i : Nat, i ∈ g.nodeIds ∨ i = (split_connection r c.marker).1.1 →
        i ∈ Genome.nodeIds
          { nodes := g.nodes
              ++ [{ id := (split_connection r c.marker).1.1,
                    role := NodeRole.hidden }],
            connections :=
              (mutate_add_node g r choice).1.connections } := by
      intro i hi
      simp only [Genome.nodeIds, List.map_append, List.toFinset_append,
        Finset.mem_union, List.mem_toFinset] at hi ⊢
      rcases hi with hi | hi
      · exact Or.inl hi
      · exact Or.inr (by simp [hi])
    rcases List.mem_cons.mp hc2 with hceq | hc2b
    · subst hceq
      exact ⟨hnode _ (Or.inl h0.1), hnode _ (Or.inr rfl)⟩
    · rcases List.mem_cons.mp hc2b with hceq | hc2c
      · subst hceq
        exact ⟨hnode _ (Or.inr rfl), hnode _ (Or.inl h0.2)⟩
      · rcases List.mem_map.mp hc2c with ⟨c0, hc0, heq⟩
        have h00 := h c0 hc0
        have hst : c2.source = c0.source ∧ c2.target = c0.target := by
          rw [← heq]
          by_cases hb : (c0.marker == c.marker) = true <;> simp [hb]
        exact ⟨hst.1 ▸ hnode _ (Or.inl h00.1), hst.2 ▸ hnode _ (Or.inl h00.2)⟩

lemma lookupNode_id (a b : Genome) (i : Nat) : (lookupNode a b i).id = i := by
  unfold lookupNode
  split
  · rename_i n hn
    simpa using List.find?_some hn
  · split
    · rename_i n hn
      simpa using List.find?_some hn
    · rfl

/-- The node ids referenced as source or target by a list of connection
genes. -/
def connRefIds (cs : List ConnectionGene) : Finset Nat :=
  (cs.map ConnectionGene.source).toFinset
    ∪ (cs.map ConnectionGene.target).toFinset

/-- The ids of a genome's input and output nodes. -/
def ioIds (g : Genome) : Finset Nat :=
  ((ioNodes g).map NodeGene.id).toFinset

lemma crossover_nodeIds_eq (a b : Genome) (fa fb : ℚ) (ch : CrossChoices) :
    (crossover a b fa fb ch).nodeIds
      = connRefIds (childConnections a b fa fb ch) ∪ ioIds a ∪ ioIds b := by
  ext i
  simp only [crossover, Genome.nodeIds, connRefIds, ioIds, List.mem_toFinset,
    List.mem_map, List.mem_dedup, List.mem_append, Finset.mem_union,
    lookupNode_id]
  constructor
  · rintro ⟨x, ⟨j, hj, hlk⟩, hxi⟩
    have hji : j = i := by rw [← hxi, ← hlk, lookupNode_id]
    subst hji
    rcases hj with ((⟨c, hc, hci⟩ | ⟨c, hc, hci⟩) | ⟨n, hn, hni⟩)
    · exact Or.inl (Or.inl (Or.inl ⟨c, hc, hci⟩))
    · exact Or.inl (Or.inl (Or.inr ⟨c, hc, hci⟩))
    · rcases hn with hn | hn
      · exact Or.inl (Or.inr ⟨n, hn, hni⟩)
      · exact Or.inr ⟨n, hn, hni⟩
  · rintro (((⟨c, hc, hci⟩ | ⟨c, hc, hci⟩) | ⟨n, hn, hni⟩) | ⟨n, hn, hni⟩)
    · exact ⟨lookupNode a b i, ⟨i, Or.inl (Or.inl ⟨c, hc, hci⟩), rfl⟩,
        lookupNode_id a b i⟩
    · exact ⟨lookupNode a b i, ⟨i, Or.inl (Or.inr ⟨c, hc, hci⟩), rfl⟩,
        lookupNode_id a b i⟩
    · exact ⟨lookupNode a b i, ⟨i, Or.inr ⟨n, Or.inl hn, hni⟩, rfl⟩,
        lookupNode_id a b i⟩
    · exact ⟨lookupNode a b i, ⟨i, Or.inr ⟨n, Or.inr hn, hni⟩, rfl⟩,
        lookupNode_id a b i⟩

lemma crossover_validRefs (a b : Genome) (fa fb : ℚ) (ch : CrossChoices) :
    (crossover a b fa fb ch).validRefs := by
  intro c hc
  rw [crossover_connections] at hc
  rw [crossover_nodeIds_eq]
  constructor
  · refine Finset.mem_union_left _ (Finset.mem_union_left _ ?_)
    unfold connRefIds
    exact Finset.mem_union_left _
      (List.mem_toFinset.mpr (List.mem_map.mpr ⟨c, hc, rfl⟩))
  · refine Finset.mem_union_left _ (Finset.mem_union_left _ ?_)
    unfold connRefIds
    exact Finset.mem_union_right _
      (List.mem_toFinset.mpr (List.mem_map.mpr ⟨c, hc, rfl⟩))

/-- One structural operation on a genome: a mutation operator or a
crossover with a second parent (all randomness passed explicitly). -/
inductive GenOp where
  | mutWeights : (ConnectionGene → ℚ) → GenOp
  | addConn : List (Nat × Nat) → ℚ → GenOp
  | addNode : Nat → GenOp
  | toggle : Nat → GenOp
  | cross : Genome → ℚ → ℚ → CrossChoices → GenOp

/-- Apply one genome operation to a genome together with the registry. -/
def applyGenOp (gr : Genome × InnovationRegistry) :
    GenOp → Genome × InnovationRegistry
  | GenOp.mutWeights f => (mutate_weights gr.1 f, gr.2)
  | GenOp.addConn attempts w => mutate_add_connection gr.1 gr.2 attempts w
  | GenOp.addNode choice => mutate_add_node gr.1 gr.2 choice
  | GenOp.toggle idx => (mutate_toggle_enable gr.1 idx, gr.2)
  | GenOp.cross other fa fb ch => (crossover gr.1 other fa fb ch, gr.2)

/-- Apply a sequence of genome operations. -/
def applyGenOps (gr : Genome × InnovationRegistry) (ops : List GenOp) :
    Genome × InnovationRegistry :=
  ops.foldl applyGenOp gr

lemma validRefs_applyGenOp (gr : Genome × InnovationRegistry) (op : GenOp)
    (h : gr.1.validRefs) : (applyGenOp gr op).1.validRefs := by
  cases op with
  | mutWeights f => exact validRefs_mutate_weights gr.1 f h
  | addConn attempts w =>
      exact validRefs_mutate_add_connection gr.1 gr.2 attempts w h
  | addNode choice => exact validRefs_mutate_add_node gr.1 gr.2 choice h
  | toggle idx => exact validRefs_mutate_toggle_enable gr.1 idx h
  | cross other fa fb ch => exact crossover_validRefs gr.1 other fa fb ch

/-- C5: after any sequence of mutation and crossover operations starting
from a genome with no dangling references, every connection gene's source
and target node ids still exist in the genome's node set; and a crossover
child's node set is exactly the node ids referenced by its inherited
connections together with both parents' input/output node ids. -/
theorem no_dangling_references (g : Genome) (r : InnovationRegistry)
    (ops : List GenOp) (hg : g.validRefs) :
    (applyGenOps (g, r) ops).1.validRefs ∧
    ∀ (a b : Genome) (fa fb : ℚ) (ch : CrossChoices),
      (crossover a b fa fb ch).nodeIds
        = connRefIds (childConnections a b fa fb ch) ∪ ioIds a ∪ ioIds b := by
  constructor
  · have main : ∀ (l : List GenOp) (gr : Genome × InnovationRegistry),
        gr.1.validRefs → (applyGenOps gr l).1.validRefs := by
      intro l
      induction l with
      | nil => exact fun gr h => h
      | cons op rest ih =>
          exact fun gr h => ih (applyGenOp gr op) (validRefs_applyGenOp gr op h)
    exact main ops (g, r) hg
  · exact crossover_nodeIds_eq

/-- Witness for C5: a toggle, an add-node split, an add-connection and a
crossover applied in sequence to a concrete valid genome keep every
connection endpoint inside the node set. -/
theorem no_dangling_references_witness :
    genomeA.validRefs ∧
    (applyGenOps (genomeA, emptyRegistry 2)
        [GenOp.toggle 0, GenOp.addNode 0, GenOp.addConn [(0, 1), (1, 2)] 1,
         GenOp.cross genomeB 2 1 chScenario]).1.validRefs :=
  ⟨by decide,
   (no_dangling_references genomeA (emptyRegistry 2)
      [GenOp.toggle 0, GenOp.addNode 0, GenOp.addConn [(0, 1), (1, 2)] 1,
       GenOp.cross genomeB 2 1 chScenario] (by decide)).1⟩

/-- C8: no mutation operator fails — weight mutation always rewrites in
place (same gene count), add-connection adds the first valid pair or is a
no-op, and in particular is exactly a no-op when no candidate pair is
valid, add-node either splits an enabled connection or is a no-op, and
toggle-enable either flips a connection or is a no-op. -/
theorem mutation_never_fails (g : Genome) (r : InnovationRegistry)
    (attempts : List (Nat × Nat)) (w : ℚ) (choice idx : Nat)
    (f : ConnectionGene → ℚ) :
    ((∀ p ∈ attempts, validPair g p = false) →
      mutate_add_connection g r attempts w = (g, r)) ∧
    ((mutate_add_connection g r attempts w) = (g, r) ∨
      ∃ p ∈ attempts, validPair g p = true ∧
        (mutate_add_connection g r attempts w).1.connections
          = { source := p.1, target := p.2, weight := w, enabled := true,
              marker := (get_or_create_connection_marker r p.1 p.2).1 }
            :: g.connections) ∧
    ((mutate_add_node g r choice) = (g, r) ∨
      ((mutate_add_node g r choice).1.nodes.length = g.nodes.length + 1 ∧
       (mutate_add_node g r choice).1.connections.length
         = g.connections.length + 2)) ∧
    ((mutate_toggle_enable g idx) = g ∨
      (mutate_toggle_enable g idx).connections.length
        = g.connections.length) ∧
    ((mutate_weights g f).connections.length = g.connections.length) := by
  refine ⟨?_, ?_, ?_, ?_, ?_⟩
  · intro hall
    unfold mutate_add_connection
    split
    · rfl
    · rename_i p hp
      have h1 := List.find?_some hp
      have h2 := List.mem_of_find?_eq_some hp
      rw [hall p h2] at h1
      exact Bool.noConfusion h1
  · unfold mutate_add_connection
    split
    · exact Or.inl rfl
    · rename_i p hp
      exact Or.inr ⟨p, List.mem_of_find?_eq_some hp,
        List.find?_some hp, rfl⟩
  · unfold mutate_add_node
    split
    · exact Or.inl rfl
    · rename_i c hc
      refine Or.inr ⟨?_, ?_⟩
      · simp
      · simp
  · unfold mutate_toggle_enable
    split
    · exact Or.inl rfl
    · rename_i c hc
      exact Or.inr (by simp)
  · unfold mutate_weights
    simp

/-- Witness for C8: on the concrete scenario genome, attempts that all
fail the validity check leave the genome and registry untouched. -/
theorem mutation_never_fails_witness :
    (∀ p ∈ [((7 : Nat), (9 : Nat)), (0, 1)], validPair genomeA p = false) ∧
    mutate_add_connection genomeA (emptyRegistry 2) [(7, 9), (0, 1)] 1
      = (genomeA, emptyRegistry 2) :=
  ⟨by decide,
   (mutation_never_fails genomeA (emptyRegistry 2) [(7, 9), (0, 1)] 1 0 0
      (fun c => c.weight)).1 (by decide)⟩

/-- Fold step tracking the best genome/fitness pair ever observed. -/
def updBest (fit : Genome → ℚ) :
    Option (Genome × ℚ) → Genome → Option (Genome × ℚ)
  | none, g => some (g, fit g)
  | some p, g => if p.2 < fit g then some (g, fit g) else some p

/-- Fold a whole population into the best-ever record. -/
def bestOfPop (fit : Genome → ℚ) (pop : List Genome)
    (b : Option (Genome × ℚ)) : Option (Genome × ℚ) :=
  pop.foldl (updBest fit) b

/-- Whether the best-ever record has reached the fitness threshold. -/
def reachedB (th : ℚ) : Option (Genome × ℚ) → Bool
  | none => false
  | some p => decide (th ≤ p.2)

/-- Modelled from the spec: the generation loop — evaluate the current
population, update the best-ever record, stop when the threshold is
reached, otherwise breed the next generation and decrement the remaining
generation budget; stop when the budget is exhausted.  Breeding (one full
Speciating/AllocatingOffspring/Breeding/ReplacingPopulation round, with all
its randomness) is abstracted as the function `next`. -/
def neatLoop (next : List Genome → List Genome) (fit : Genome → ℚ)
    (th : ℚ) : Nat → List Genome → Option (Genome × ℚ) → Option (Genome × ℚ)
  | 0, _, best => best
  | fuel + 1, pop, best =>
      if reachedB th (bestOfPop fit pop best) then bestOfPop fit pop best
      else neatLoop next fit th fuel (next pop) (bestOfPop fit pop best)

/-- Modelled from the spec: `start` runs the full generation loop from the
initial population (the Initializing stage is abstracted as the population
it produces) for at most `maxGen` generations and returns the best genome
ever observed. -/
def startRun (next : List Genome → List Genome) (fit : Genome → ℚ)
    (pop0 : List Genome) (maxGen : Nat) (th : ℚ) : Option (Genome × ℚ) :=
  neatLoop next fit th maxGen pop0 none

/-- The best-ever record after evaluating generations 0 through k-1. -/
def bestUpTo (next : List Genome → List Genome) (fit : Genome → ℚ)
    (pop0 : List Genome) : Nat → Option (Genome × ℚ)
  | 0 => none
  | k + 1 => bestOfPop fit (next^[k] pop0) (bestUpTo next fit pop0 k)

lemma updBest_isSome (fit : Genome → ℚ) (b : Option (Genome × ℚ))
    (g : Genome) : ∃ q, updBest fit b g = some q := by
  cases b with
  | none => exact ⟨(g, fit g), rfl⟩
  | some p =>
      by_cases hlt : p.2 < fit g
      · exact ⟨(g, fit g), by simp only [updBest, if_pos hlt]⟩
      · exact ⟨p, by simp only [updBest, if_neg hlt]⟩

lemma updBest_spec (fit : Genome → ℚ) (b : Option (Genome × ℚ))
    (g : Genome) (q : Genome × ℚ) (hq : updBest fit b g = some q) :
    fit g ≤ q.2 ∧ (∀ q0, b = some q0 → q0.2 ≤ q.2) ∧
    (q = (g, fit g) ∨ b = some q) := by
  cases b with
  | none =>
      simp only [updBest, Option.some.injEq] at hq
      subst hq
      exact ⟨le_refl _, fun q0 hq0 => Option.noConfusion hq0, Or.inl rfl⟩
  | some p =>
      by_cases hlt : p.2 < fit g
      · simp only [updBest, if_pos hlt, Option.some.injEq] at hq
        subst hq
        exact ⟨le_refl _,
          fun q0 hq0 => by cases hq0; exact le_of_lt hlt, Or.inl rfl⟩
      · simp only [updBest, if_neg hlt, Option.some.injEq] at hq
        subst hq
        exact ⟨le_of_not_lt hlt,
          fun q0 hq0 => by cases hq0; exact le_refl _, Or.inr rfl⟩

lemma bestOfPop_le (fit : Genome → ℚ) (pop : List Genome)
    (b : Option (Genome × ℚ)) :
    ∀ p, bestOfPop fit pop b = some p →
      (∀ x ∈ pop, fit x ≤ p.2) ∧
      (∀ q, b = some q → q.2 ≤ p.2) ∧
      ((∃ x ∈ pop, p = (x, fit x)) ∨ b = some p) := by
  induction pop generalizing b with
  | nil =>
      intro p hp
      have hb : b = some p := hp
      exact ⟨fun x hx => absurd hx (List.not_mem_nil x),
        fun q hq => by rw [hb] at hq; cases hq; exact le_refl _,
        Or.inr hb⟩
  | cons g rest ih =>
      intro p hp
      have hstep := ih (updBest fit b g) p hp
      obtain ⟨q, hq⟩ := updBest_isSome fit b g
      obtain ⟨hq1, hq2, hq3⟩ := updBest_spec fit b g q hq
      refine ⟨?_, ?_, ?_⟩
      · intro x hx
        rcases List.mem_cons.mp hx with hxg | hxr
        · subst hxg
          exact le_trans hq1 (hstep.2.1 q hq)
        · exact hstep.1 x hxr
      · intro q0 hq0
        exact le_trans (hq2 q0 hq0) (hstep.2.1 q hq)
      · rcases hstep.2.2 with ⟨x, hx, hpx⟩ | hbp
        · exact Or.inl ⟨x, List.mem_cons_of_mem g hx, hpx⟩
        · rcases (updBest_spec fit b g p hbp).2.2 with hpg | hbsome
          · exact Or.inl ⟨g, List.mem_cons_self g rest, hpg⟩
          · exact Or.inr hbsome

lemma bestOfPop_none (fit : Genome → ℚ) (pop : List Genome)
    (b : Option (Genome × ℚ)) (h : bestOfPop fit pop b = none) :
    b = none ∧ pop = [] := by
  cases pop with
  | nil => exact ⟨h, rfl⟩
  | cons g rest =>
      exfalso
      obtain ⟨q, hq⟩ := updBest_isSome fit b g
      have hr := bestOfPop_le fit rest (updBest fit b g)
      cases hrn : bestOfPop fit rest (updBest fit b g) with
      | some p =>
          have : bestOfPop fit (g :: rest) b = some p := hrn
          rw [this] at h
          exact Option.noConfusion h
      | none =>
          have := bestOfPop_none fit rest (updBest fit b g) hrn
          rw [hq] at this
          exact Option.noConfusion this.1

lemma bestUpTo_none (next : List Genome → List Genome) (fit : Genome → ℚ)
    (pop0 : List Genome) :
    ∀ k, bestUpTo next fit pop0 k = none → ∀ j < k, next^[j] pop0 = [] := by
  intro k
  induction k with
  | zero => intro h j hj; omega
  | succ k ih =>
      intro h j hj
      have hsplit := bestOfPop_none fit (next^[k] pop0)
        (bestUpTo next fit pop0 k) h
      rcases Nat.lt_succ_iff_lt_or_eq.mp hj with hjk | hjk
      · exact ih hsplit.1 j hjk
      · subst hjk
        exact hsplit.2

lemma bestUpTo_spec (next : List Genome → List Genome) (fit : Genome → ℚ)
    (pop0 : List Genome) :
    ∀ k p, bestUpTo next fit pop0 k = some p →
      p.2 = fit p.1 ∧ (∃ j < k, p.1 ∈ next^[j] pop0) ∧
      (∀ j < k, ∀ x ∈ next^[j] pop0, fit x ≤ p.2) := by
  intro k
  induction k with
  | zero => intro p hp; exact Option.noConfusion hp
  | succ k ih =>
      intro p hp
      have h := bestOfPop_le fit (next^[k] pop0) (bestUpTo next fit pop0 k) p hp
      refine ⟨?_, ?_, ?_⟩
      · rcases h.2.2 with ⟨x, hx, hpx⟩ | hbp
        · rw [hpx]
        · exact (ih p hbp).1
      · rcases h.2.2 with ⟨x, hx, hpx⟩ | hbp
        · exact ⟨k, Nat.lt_succ_self k, by rw [hpx]; exact hx⟩
        · obtain ⟨j, hj, hmem⟩ := (ih p hbp).2.1
          exact ⟨j, Nat.lt_succ_of_lt hj, hmem⟩
      · intro j hj x hx
        rcases Nat.lt_succ_iff_lt_or_eq.mp hj with hjk | hjk
        · cases hbk : bestUpTo next fit pop0 k with
          | some q =>
              exact le_trans ((ih q hbk).2.2 j hjk x hx) (h.2.1 q hbk)
          | none =>
              rw [bestUpTo_none next fit pop0 k hbk j hjk] at hx
              exact absurd hx (List.not_mem_nil x)
        · subst hjk
          exact h.1 x hx

lemma neatLoop_spec (next : List Genome → List Genome) (fit : Genome → ℚ)
    (th : ℚ) (pop0 : List Genome) :
    ∀ (fuel j : Nat),
      ∃ gU, j ≤ gU ∧ gU ≤ j + fuel ∧
        neatLoop next fit th fuel (next^[j] pop0) (bestUpTo next fit pop0 j)
          = bestUpTo next fit pop0 gU ∧
        (reachedB th (bestUpTo next fit pop0 gU) = true ∨ gU = j + fuel) ∧
        (∀ k, j < k → k < gU →
          reachedB th (bestUpTo next fit pop0 k) = false) := by
  intro fuel
  induction fuel with
  | zero =>
      intro j
      exact ⟨j, le_refl j, by omega, rfl, Or.inr rfl,
        fun k h1 h2 => absurd h1 (by omega)⟩
  | succ fuel ih =>
      intro j
      have hb2 : bestOfPop fit (next^[j] pop0) (bestUpTo next fit pop0 j)
          = bestUpTo next fit pop0 (j + 1) := rfl
      by_cases hr : reachedB th (bestUpTo next fit pop0 (j + 1)) = true
      · refine ⟨j + 1, by omega, by omega, ?_, Or.inl hr,
          fun k h1 h2 => absurd h1 (by omega)⟩
        simp only [neatLoop]
        rw [hb2, if_pos hr]
      · obtain ⟨gU, h1, h2, h3, h4, h5⟩ := ih (j + 1)
        have hrf : reachedB th (bestUpTo next fit pop0 (j + 1)) = false := by
          simpa using hr
        refine ⟨gU, by omega, by omega, ?_, ?_, ?_⟩
        · simp only [neatLoop]
          rw [hb2, if_neg hr, ← Function.iterate_succ_apply' next j pop0]
          exact h3
        · rcases h4 with h4 | h4
          · exact Or.inl h4
          · exact Or.inr (by omega)
        · intro k hk1 hk2
          by_cases hkj : k = j + 1
          · subst hkj
            exact hrf
          · exact h5 k (by omega) hk2

/-- C4: the generation loop runs until the best-ever fitness reaches the
threshold or the generation budget is exhausted — the number of evaluated
generations gU is at most maxGen, every earlier generation left the
threshold unreached, and the returned value is the best genome ever
observed across all evaluated generations (its fitness equals the fitness
function on it, it belongs to some evaluated generation — not necessarily
the final one — and no genome of any evaluated generation beats it). -/
theorem start_terminates_correct (next : List Genome → List Genome)
    (fit : Genome → ℚ) (pop0 : List Genome) (maxGen : Nat) (th : ℚ) :
    ∃ gU, gU ≤ maxGen ∧
      startRun next fit pop0 maxGen th = bestUpTo next fit pop0 gU ∧
      (reachedB th (bestUpTo next fit pop0 gU) = true ∨ gU = maxGen) ∧
      (∀ k < gU, reachedB th (bestUpTo next fit pop0 k) = false) ∧
      (∀ p, startRun next fit pop0 maxGen th = some p →
        p.2 = fit p.1 ∧ (∃ j < gU, p.1 ∈ next^[j] pop0) ∧
        (∀ j < gU, ∀ x ∈ next^[j] pop0, fit x ≤ p.2)) := by
  obtain ⟨gU, h1, h2, h3, h4, h5⟩ := neatLoop_spec next fit th pop0 maxGen 0
  have hstart : startRun next fit pop0 maxGen th = bestUpTo next fit pop0 gU :=
    h3
  refine ⟨gU, by omega, hstart, ?_, ?_, ?_⟩
  · rcases h4 with h4 | h4
    · exact Or.inl h4
    · exact Or.inr (by omega)
  · intro k hk
    cases k with
    | zero => rfl
    | succ k2 => exact h5 (k2 + 1) (by omega) hk
  · intro p hp
    rw [hstart] at hp
    exact bestUpTo_spec next fit pop0 gU p hp

/-- Fitness used in the C4 witness: the number of connection genes. -/
def fitLen : Genome → ℚ := fun g => (g.connections.length : ℚ)

/-- Witness for C4: a concrete three-generation budget with a stationary
breeding step; the loop stops as characterized by the theorem, and the
concrete run stops at the first generation with the best pair
(genomeA, 4). -/
theorem start_terminates_correct_witness :
    (∃ gU, gU ≤ 3 ∧
      startRun (fun pp => pp) fitLen [genomeA] 3 2
        = bestUpTo (fun pp => pp) fitLen [genomeA] gU ∧
      (reachedB 2 (bestUpTo (fun pp => pp) fitLen [genomeA] gU) = true
        ∨ gU = 3) ∧
      (∀ k < gU,
        reachedB 2 (bestUpTo (fun pp => pp) fitLen [genomeA] k) = false) ∧
      (∀ p, startRun (fun pp => pp) fitLen [genomeA] 3 2 = some p →
        p.2 = fitLen p.1 ∧
        (∃ j < gU, p.1 ∈ (fun pp => pp : List Genome → List Genome)^[j]
            [genomeA]) ∧
        (∀ j < gU, ∀ x ∈ (fun pp => pp : List Genome → List Genome)^[j]
            [genomeA], fitLen x ≤ p.2))) ∧
    startRun (fun pp => pp) fitLen [genomeA] 3 2 = some (genomeA, 4) :=
  ⟨start_terminates_correct (fun pp => pp) fitLen [genomeA] 3 2, by decide⟩

/-- One row of the per-generation table the run prints: species id, member
count, average fitness, best fitness, and the (node-count,
connection-count) shape of the species' best genome. -/
structure SpeciesReport where
  sid : Nat
  memberCount : Nat
  avgFitness : ℚ
  bestFitness : ℚ
  bestShape : Nat × Nat
deriving DecidableEq, Repr

/-- The per-generation progress report: generation index, overall best
fitness of the generation, and one row per species. -/
structure GenerationReport where
  generation : Nat
  bestFitness : ℚ
  species : List SpeciesReport
deriving DecidableEq, Repr

/-- Fold selecting the best member of a species. -/
def bestMember (m0 : Genome × ℚ) (rest : List (Genome × ℚ)) : Genome × ℚ :=
  rest.foldl (fun acc p => if acc.2 < p.2 then p else acc) m0

/-- Modelled from the spec: the report row for one species. -/
def speciesReport (sid : Nat) (members : List (Genome × ℚ)) :
    SpeciesReport :=
  match members with
  | [] =>
      { sid := sid, memberCount := 0, avgFitness := 0, bestFitness := 0,
        bestShape := (0, 0) }
  | m :: rest =>
      { sid := sid, memberCount := (m :: rest).length,
        avgFitness := ((m :: rest).map Prod.snd).sum / (m :: rest).length,
        bestFitness := (bestMember m rest).2,
        bestShape := ((bestMember m rest).1.nodes.length,
          (bestMember m rest).1.connections.length) }

/-- Modelled from the spec: the whole per-generation report, built from the
generation index and the per-species members with their fitness. -/
def makeReport (gen : Nat) (sp : List (Nat × List (Genome × ℚ))) :
    GenerationReport :=
  { generation := gen,
    bestFitness :=
      match sp.map (fun s => speciesReport s.1 s.2) with
      | [] => 0
      | rp :: rest => rest.foldl (fun acc r2 => max acc r2.bestFitness)
          rp.bestFitness,
    species := sp.map (fun s => speciesReport s.1 s.2) }

lemma bestMember_spec (rest : List (Genome × ℚ)) :
    ∀ m0 : Genome × ℚ,
      (bestMember m0 rest = m0 ∨ bestMember m0 rest ∈ rest) ∧
      m0.2 ≤ (bestMember m0 rest).2 ∧
      ∀ p ∈ rest, p.2 ≤ (bestMember m0 rest).2 := by
  induction rest with
  | nil =>
      intro m0
      exact ⟨Or.inl rfl, le_refl _, fun p hp => absurd hp (List.not_mem_nil p)⟩
  | cons q rest ih =>
      intro m0
      have hstep : bestMember m0 (q :: rest)
          = bestMember (if m0.2 < q.2 then q else m0) rest := rfl
      by_cases hlt : m0.2 < q.2
      · rw [hstep, if_pos hlt]
        obtain ⟨hmem, hle, hall⟩ := ih q
        refine ⟨?_, le_trans (le_of_lt hlt) hle, ?_⟩
        · rcases hmem with hmem | hmem
          · exact Or.inr (by rw [hmem]; exact List.mem_cons_self q rest)
          · exact Or.inr (List.mem_cons_of_mem q hmem)
        · intro p hp
          rcases List.mem_cons.mp hp with hpq | hpr
          · subst hpq
            exact hle
          · exact hall p hpr
      · rw [hstep, if_neg hlt]
        obtain ⟨hmem, hle, hall⟩ := ih m0
        refine ⟨?_, hle, ?_⟩
        · rcases hmem with hmem | hmem
          · exact Or.inl hmem
          · exact Or.inr (List.mem_cons_of_mem q hmem)
        · intro p hp
          rcases List.mem_cons.mp hp with hpq | hpr
          · subst hpq
            exact le_trans (le_of_not_lt hlt) hle
          · exact hall p hpr

lemma foldl_max_spec (l : List SpeciesReport) :
    ∀ x0 : ℚ,
      x0 ≤ l.foldl (fun acc r2 => max acc r2.bestFitness) x0 ∧
      (∀ rp ∈ l, rp.bestFitness
        ≤ l.foldl (fun acc r2 => max acc r2.bestFitness) x0) ∧
      (l.foldl (fun acc r2 => max acc r2.bestFitness) x0 = x0 ∨
        ∃ rp ∈ l, l.foldl (fun acc r2 => max acc r2.bestFitness) x0
          = rp.bestFitness) := by
  induction l with
  | nil =>
      intro x0
      exact ⟨le_refl _, fun rp hrp => absurd hrp (List.not_mem_nil rp),
        Or.inl rfl⟩
  | cons rp0 rest ih =>
      intro x0
      obtain ⟨h1, h2, h3⟩ := ih (max x0 rp0.bestFitness)
      have hstep : (rp0 :: rest).foldl (fun acc r2 => max acc r2.bestFitness) x0
          = rest.foldl (fun acc r2 => max acc r2.bestFitness)
              (max x0 rp0.bestFitness) := rfl
      rw [hstep]
      refine ⟨le_trans (le_max_left _ _) h1, ?_, ?_⟩
      · intro rp hrp
        rcases List.mem_cons.mp hrp with hrp0 | hrpr
        · subst hrp0
          exact le_trans (le_max_right _ _) h1
        · exact h2 rp hrpr
      · rcases h3 with h3 | ⟨rp, hrp, hval⟩
        · rcases max_choice x0 rp0.bestFitness with hm | hm
          · exact Or.inl (by rw [h3, hm])
          · exact Or.inr ⟨rp0, List.mem_cons_self rp0 rest, by rw [h3, hm]⟩
        · exact Or.inr ⟨rp, List.mem_cons_of_mem rp0 hrp, hval⟩

lemma speciesReport_fields (sid : Nat) (members : List (Genome × ℚ))
    (hne : members ≠ []) :
    (speciesReport sid members).sid = sid ∧
    (speciesReport sid members).memberCount = members.length ∧
    (speciesReport sid members).avgFitness
      = (members.map Prod.snd).sum / (members.length : ℚ) ∧
    (∃ m ∈ members, (speciesReport sid members).bestFitness = m.2 ∧
      (speciesReport sid members).bestShape
        = (m.1.nodes.length, m.1.connections.length) ∧
      ∀ m2 ∈ members, m2.2 ≤ m.2) := by
  cases members with
  | nil => exact absurd rfl hne
  | cons m rest =>
      obtain ⟨hmem, hle, hall⟩ := bestMember_spec rest m
      refine ⟨rfl, rfl, rfl, bestMember m rest, ?_, rfl, rfl, ?_⟩
      · rcases hmem with hmem | hmem
        · rw [hmem]
          exact List.mem_cons_self m rest
        · exact List.mem_cons_of_mem m hmem
      · intro p hp
        rcases List.mem_cons.mp hp with hpm | hpr
        · subst hpm
          exact hle
        · exact hall p hpr

/-- C9: the per-generation report exposes the generation index, the overall
best fitness of the generation (an upper bound attained by some member),
and per species its id, member count, average fitness, best fitness, and
the (node-count, connection-count) shape of its best genome. -/
theorem generation_report_fields (gen : Nat)
    (sp : List (Nat × List (Genome × ℚ))) (hne : ∀ s ∈ sp, s.2 ≠ []) :
    (makeReport gen sp).generation = gen ∧
    (makeReport gen sp).species = sp.map (fun s => speciesReport s.1 s.2) ∧
    (∀ s ∈ sp,
      (speciesReport s.1 s.2).sid = s.1 ∧
      (speciesReport s.1 s.2).memberCount = s.2.length ∧
      (speciesReport s.1 s.2).avgFitness
        = (s.2.map Prod.snd).sum / (s.2.length : ℚ) ∧
      (∃ m ∈ s.2, (speciesReport s.1 s.2).bestFitness = m.2 ∧
        (speciesReport s.1 s.2).bestShape
          = (m.1.nodes.length, m.1.connections.length) ∧
        ∀ m2 ∈ s.2, m2.2 ≤ m.2)) ∧
    (∀ s ∈ sp, ∀ m ∈ s.2, m.2 ≤ (makeReport gen sp).bestFitness) ∧
    (sp ≠ [] → ∃ s ∈ sp, ∃ m ∈ s.2,
      (makeReport gen sp).bestFitness = m.2) := by
  refine ⟨rfl, rfl, ?_, ?_, ?_⟩
  · intro s hs
    exact speciesReport_fields s.1 s.2 (hne s hs)
  · intro s hs m hm
    cases sp with
    | nil => exact absurd hs (List.not_mem_nil s)
    | cons s0 sprest =>
        have hbig := foldl_max_spec
          (sprest.map (fun s2 => speciesReport s2.1 s2.2))
          (speciesReport s0.1 s0.2).bestFitness
        have hrep : (makeReport gen (s0 :: sprest)).bestFitness
            = (sprest.map (fun s2 => speciesReport s2.1 s2.2)).foldl
                (fun acc r2 => max acc r2.bestFitness)
                (speciesReport s0.1 s0.2).bestFitness := rfl
        rw [hrep]
        have hmle : m.2 ≤ (speciesReport s.1 s.2).bestFitness := by
          obtain ⟨mb, hmb, hbfit, -, hball⟩ :=
            (speciesReport_fields s.1 s.2 (hne s hs)).2.2.2
          rw [hbfit]
          exact hball m hm
        rcases List.mem_cons.mp hs with hss0 | hssr
        · subst hss0
          exact le_trans hmle hbig.1
        · exact le_trans hmle
            (hbig.2.1 _ (List.mem_map.mpr ⟨s, hssr, rfl⟩))
  · intro hsp
    cases sp with
    | nil => exact absurd rfl hsp
    | cons s0 sprest =>
        have hbig := foldl_max_spec
          (sprest.map (fun s2 => speciesReport s2.1 s2.2))
          (speciesReport s0.1 s0.2).bestFitness
        have hrep : (makeReport gen (s0 :: sprest)).bestFitness
            = (sprest.map (fun s2 => speciesReport s2.1 s2.2)).foldl
                (fun acc r2 => max acc r2.bestFitness)
                (speciesReport s0.1 s0.2).bestFitness := rfl
        rcases hbig.2.2 with hx0 | ⟨rp, hrp, hval⟩
        · obtain ⟨mb, hmb, hbfit, -, -⟩ :=
            (speciesReport_fields s0.1 s0.2
              (hne s0 (List.mem_cons_self s0 sprest))).2.2.2
          exact ⟨s0, List.mem_cons_self s0 sprest, mb, hmb,
            by rw [hrep, hx0, hbfit]⟩
        · obtain ⟨s, hsr, rfl⟩ := List.mem_map.mp hrp
          obtain ⟨mb, hmb, hbfit, -, -⟩ :=
            (speciesReport_fields s.1 s.2
              (hne s (List.mem_cons_of_mem s0 hsr))).2.2.2
          exact ⟨s, List.mem_cons_of_mem s0 hsr, mb, hmb,
            by rw [hrep, hval, hbfit]⟩

/-- Concrete species partition used by the C9 witness. -/
def spWitness : List (Nat × List (Genome × ℚ)) :=
  [(1, [(genomeA, 3)]), (2, [(genomeB, 1), (genomeA, 2)])]

/-- Witness for C9: on a concrete two-species partition, all per-species
lists are nonempty, the report carries the generation index, and the
overall best fitness evaluates to 3. -/
theorem generation_report_fields_witness :
    (∀ s ∈ spWitness, s.2 ≠ []) ∧
    (makeReport 5 spWitness).generation = 5 ∧
    (makeReport 5 spWitness).bestFitness = 3 :=
  ⟨by decide, (generation_report_fields 5 spWitness (by decide)).1,
   by decide⟩
